import Mathlib

/-!
Verification of the Helium schema/data access layer.

The repository under verification is a web tool for browsing and editing
relational databases.  Its core (constraint resolver, table metadata
builder, content query engine, insert engine) is embedded shallowly below:
pure functions become Lean functions, stateful code becomes explicit state
passing, fallible code returns `Except`.
-/

namespace Helium

/-- Error kinds of the data access layer (spec section 7): ValidationError,
NotFoundError, ResolutionError and DatabaseError. -/
inductive DaoError
  | validation : String → DaoError
  | notFound : String → DaoError
  | resolution : String → DaoError
  | database : String → String → DaoError
deriving DecidableEq, Repr

/-- True exactly when the computation failed with a ValidationError. -/
def isValidationError {α : Type} : Except DaoError α → Bool
  | .error (.validation _) => true
  | _ => false

/-- A formatted scalar value as it appears in a `SqlRow`: string, number,
boolean, null, or (pre-formatting) raw blob bytes. -/
inductive SqlValue
  | vStr : String → SqlValue
  | vInt : Int → SqlValue
  | vBool : Bool → SqlValue
  | vNull : SqlValue
  | vBlob : List Nat → SqlValue
deriving DecidableEq, Repr

/-- A fully-qualified column reference `(schema, table, column)` as stored in
a foreign-key `RawConstraint.ref`. -/
structure Ref where
  schema : String
  table : String
  column : String
deriving DecidableEq, Repr

/-- The three constraint kinds read from the catalog. -/
inductive ConstraintType
  | primary
  | foreign
  | unique
deriving DecidableEq, Repr

/-- A raw per-column constraint row as read from the catalog (spec section 3):
`index` is the column ordinal within the (possibly compound) constraint,
`ref` is the immediately referenced column for foreign keys. -/
structure RawConstraint where
  index : Nat
  name : String
  localColumn : String
  type : ConstraintType
  ref : Option Ref
deriving DecidableEq, Repr

/-- Modelled from the spec: the constraint catalog, mapping each
`(schema, table)` pair to that table's raw constraint list, standing in for
the catalog introspection queries of the missing `SchemaDao` source. -/
abbrev Catalog : Type := List ((String × String) × List RawConstraint)

/-- The raw constraints the catalog records for one table. -/
def tableConstraints (cat : Catalog) (schema table : String) : List RawConstraint :=
  match cat.find? (fun e => decide (e.1 = (schema, table))) with
  | some e => e.2
  | none => []

/-- The foreign-key constraint (if any) whose local column is the referenced
column `r`.  A chain continues exactly when this is `some`. -/
def findFK (cat : Catalog) (r : Ref) : Option RawConstraint :=
  (tableConstraints cat r.schema r.table).find?
    (fun c => decide (c.type = ConstraintType.foreign ∧ c.localColumn = r.column))

/-- The foreign-key local columns appearing in one catalog entry, as
fully-qualified references. -/
def entryFKCols (e : (String × String) × List RawConstraint) : List Ref :=
  (e.2.filter (fun c => decide (c.type = ConstraintType.foreign))).map
    (fun c => ⟨e.1.1, e.1.2, c.localColumn⟩)

/-- Every fully-qualified column that is the local column of some foreign key
in the catalog.  Its size bounds the length of any acyclic reference chain. -/
def allFKCols (cat : Catalog) : List Ref :=
  (cat.map entryFKCols).flatten

/-- Modelled from the spec: follows a foreign-key reference chain (spec
section 4.2, missing `SchemaDao.resolveConstraints` source) with a visited
set of `(schema, table, column)` keys for cycle detection, returning the
final non-foreign-key target.  `fuel` bounds recursion depth; the public
entry point supplies enough fuel for every acyclic chain. -/
def resolveRefAux (cat : Catalog) : Nat → List Ref → Ref → Except DaoError Ref
  | 0, _, _ => .error (.resolution "resolution fuel exhausted")
  | fuel + 1, visited, r =>
    if r ∈ visited then
      .error (.resolution "foreign key reference cycle")
    else
      match findFK cat r with
      | none => .ok r
      | some c =>
        match c.ref with
        | none => .error (.resolution "dangling foreign key reference")
        | some next => resolveRefAux cat fuel (r :: visited) next

/-- Fuel sufficient for any acyclic chain: one more than the number of
foreign-key columns in the whole catalog. -/
def catalogFuel (cat : Catalog) : Nat := (allFKCols cat).length + 1

/-- Resolves one referenced column to its ultimate non-foreign-key target. -/
def resolveRef (cat : Catalog) (r : Ref) : Except DaoError Ref :=
  resolveRefAux cat (catalogFuel cat) [] r

/-- Modelled from the spec: resolves a single raw constraint; foreign keys
get their `ref` replaced by the final resolved target, all other constraints
pass through unchanged. -/
def resolveOne (cat : Catalog) (c : RawConstraint) : Except DaoError RawConstraint :=
  match c.type, c.ref with
  | ConstraintType.foreign, some r =>
    (resolveRef cat r).map (fun z => { c with ref := some z })
  | _, _ => .ok c

/-- Maps a fallible function over a list, failing on the first error. -/
def mapExcept {α β ε : Type} (f : α → Except ε β) : List α → Except ε (List β)
  | [] => .ok []
  | x :: xs =>
    match f x with
    | .error e => .error e
    | .ok y =>
      match mapExcept f xs with
      | .error e => .error e
      | .ok ys => .ok (y :: ys)

/-- Modelled from the spec: `resolveConstraints` (spec section 4.2, missing
`SchemaDao` source) resolves every constraint in the list. -/
def resolveConstraints (cat : Catalog) (cs : List RawConstraint) :
    Except DaoError (List RawConstraint) :=
  mapExcept (resolveOne cat) cs

/-- `FKChainN cat n r z` says the reference chain starting at column `r`
follows exactly `n` foreign-key hops and ends at column `z`, which is not
itself a foreign key. -/
inductive FKChainN (cat : Catalog) : Nat → Ref → Ref → Prop
  | final {r : Ref} : findFK cat r = none → FKChainN cat 0 r r
  | step {r next z : Ref} {c : RawConstraint} {n : Nat} :
      findFK cat r = some c → c.ref = some next →
      FKChainN cat n next z → FKChainN cat (n + 1) r z

/-- Reference chains are deterministic: from one starting column there is at
most one chain length and one final target. -/
theorem fkChainN_unique {cat : Catalog} {n m : Nat} {r z w : Ref}
    (h1 : FKChainN cat n r z) (h2 : FKChainN cat m r w) : n = m ∧ z = w := by
  induction h1 generalizing m w with
  | final hnone =>
    cases h2 with
    | final _ => exact ⟨rfl, rfl⟩
    | step hsome _ _ => rw [hnone] at hsome; exact absurd hsome (by simp)
  | step hsome href _ ih =>
    cases h2 with
    | final hnone => rw [hnone] at hsome; exact absurd hsome (by simp)
    | step hsome2 href2 htail2 =>
      rw [hsome] at hsome2
      cases hsome2
      rw [href] at href2
      cases href2
      obtain ⟨hn, hz⟩ := ih htail2
      exact ⟨by omega, hz⟩

/-- A column at which a chain can step is one of the catalog's foreign-key
columns. -/
theorem findFK_mem_allFKCols {cat : Catalog} {r : Ref} {c : RawConstraint}
    (h : findFK cat r = some c) : r ∈ allFKCols cat := by
  unfold findFK at h
  unfold tableConstraints at h
  cases hfind : cat.find? (fun e => decide (e.1 = (r.schema, r.table))) with
  | none => rw [hfind] at h; simp at h
  | some e =>
    rw [hfind] at h
    have hmem : e ∈ cat := List.mem_of_find?_eq_some hfind
    have hkey : e.1 = (r.schema, r.table) := by
      have := List.find?_some hfind
      exact of_decide_eq_true this
    have hc : c ∈ e.2 := List.mem_of_find?_eq_some h
    have hcprop : c.type = ConstraintType.foreign ∧ c.localColumn = r.column := by
      have := List.find?_some h
      exact of_decide_eq_true this
    unfold allFKCols
    rw [List.mem_flatten]
    refine ⟨entryFKCols e, List.mem_map_of_mem entryFKCols hmem, ?_⟩
    unfold entryFKCols
    have hcf : c ∈ e.2.filter (fun c => decide (c.type = ConstraintType.foreign)) := by
      rw [List.mem_filter]
      exact ⟨hc, by simp [hcprop.1]⟩
    have : (⟨e.1.1, e.1.2, c.localColumn⟩ : Ref) = r := by
      rw [hkey]
      cases r
      simp [hcprop.2]
    rw [← this]
    exact List.mem_map_of_mem _ hcf

/-- Every chain of length `n` visits `n` distinct foreign-key columns, each a
member of `allFKCols`, and every visited column has a strictly positive
remaining chain length bounded by `n`. -/
theorem fkChainN_nodes {cat : Catalog} {n : Nat} {r z : Ref}
    (h : FKChainN cat n r z) :
    ∃ l : List Ref, l.length = n ∧ l.Nodup ∧ (∀ x ∈ l, x ∈ allFKCols cat) ∧
      (∀ x ∈ l, ∃ m, 1 ≤ m ∧ m ≤ n ∧ FKChainN cat m x z) := by
  induction h with
  | final _ => exact ⟨[], rfl, List.nodup_nil, by simp, by simp⟩
  | @step r next z c n hsome href htail ih =>
    obtain ⟨l, hlen, hnodup, hcols, hchains⟩ := ih
    refine ⟨r :: l, by simp [hlen], ?_, ?_, ?_⟩
    · rw [List.nodup_cons]
      refine ⟨?_, hnodup⟩
      intro hr
      obtain ⟨m, hm1, hmn, hchm⟩ := hchains r hr
      have := fkChainN_unique hchm (FKChainN.step hsome href htail)
      omega
    · intro x hx
      rcases List.mem_cons.mp hx with hx | hx
      · subst hx; exact findFK_mem_allFKCols hsome
      · exact hcols x hx
    · intro x hx
      rcases List.mem_cons.mp hx with hx | hx
      · subst hx
        exact ⟨n + 1, by omega, by omega, FKChainN.step hsome href htail⟩
      · obtain ⟨m, hm1, hmn, hchm⟩ := hchains x hx
        exact ⟨m, hm1, by omega, hchm⟩

/-- The length of any chain is bounded by the number of foreign-key columns
in the catalog. -/
theorem fkChainN_length_le {cat : Catalog} {n : Nat} {r z : Ref}
    (h : FKChainN cat n r z) : n ≤ (allFKCols cat).length := by
  obtain ⟨l, hlen, hnodup, hcols, _⟩ := fkChainN_nodes h
  have hsub : l ⊆ allFKCols cat := fun x hx => hcols x hx
  have := (List.subperm_of_subset hnodup hsub).length_le
  omega

/-- The chain follower returns the final target whenever it has enough fuel
and no chain column is already in the visited set. -/
theorem resolveRefAux_ok {cat : Catalog} {n : Nat} {r z : Ref}
    (h : FKChainN cat n r z) :
    ∀ fuel visited, n < fuel →
      (∀ x ∈ visited, ∀ m, FKChainN cat m x z → n < m) →
      resolveRefAux cat fuel visited r = .ok z := by
  induction h with
  | @final r hnone =>
    intro fuel visited hfuel hvis
    match fuel with
    | fuel + 1 =>
      unfold resolveRefAux
      have hrnot : r ∉ visited := by
        intro hr
        exact absurd (hvis r hr 0 (FKChainN.final hnone)) (by omega)
      rw [if_neg hrnot, hnone]
  | @step r next z c n hsome href htail ih =>
    intro fuel visited hfuel hvis
    match fuel with
    | fuel + 1 =>
      unfold resolveRefAux
      have hrnot : r ∉ visited := by
        intro hr
        exact absurd (hvis r hr (n + 1) (FKChainN.step hsome href htail)) (by omega)
      rw [if_neg hrnot]
      simp only [hsome, href]
      apply ih fuel (r :: visited) (by omega)
      intro x hx m hchm
      rcases List.mem_cons.mp hx with hx | hx
      · subst hx
        have := fkChainN_unique hchm (FKChainN.step hsome href htail)
        omega
      · exact Nat.lt_of_succ_lt (hvis x hx m hchm)

/-- Resolution of one referenced column succeeds and produces the final
chain target. -/
theorem resolveRef_ok {cat : Catalog} {n : Nat} {r z : Ref}
    (h : FKChainN cat n r z) : resolveRef cat r = .ok z := by
  apply resolveRefAux_ok h
  · have := fkChainN_length_le h
    unfold catalogFuel
    omega
  · intro x hx; simp at hx

/-- Resolving a foreign-key constraint with a terminating chain replaces its
`ref` by the chain's final target. -/
theorem resolveOne_ok {cat : Catalog} {n : Nat} {r z : Ref} {c : RawConstraint}
    (hfk : c.type = ConstraintType.foreign) (href : c.ref = some r)
    (h : FKChainN cat n r z) :
    resolveOne cat c = .ok { c with ref := some z } := by
  unfold resolveOne
  rw [hfk, href]
  simp [resolveRef_ok h, Except.map]

/-- On success, `mapExcept` maps each input element to the output element at
the same position. -/
theorem mapExcept_ok_get {α β ε : Type} {f : α → Except ε β} :
    ∀ {l : List α} {out : List β}, mapExcept f l = .ok out →
      out.length = l.length ∧
      ∀ i (h : i < l.length) (h2 : i < out.length),
        f (l.get ⟨i, h⟩) = .ok (out.get ⟨i, h2⟩) := by
  intro l
  induction l with
  | nil =>
    intro out h
    unfold mapExcept at h
    cases h
    exact ⟨rfl, by intro i h _; exact absurd h (by simp)⟩
  | cons x xs ih =>
    intro out h
    unfold mapExcept at h
    cases hfx : f x with
    | error e => rw [hfx] at h; exact absurd h (by simp)
    | ok y =>
      rw [hfx] at h
      cases hrest : mapExcept f xs with
      | error e => rw [hrest] at h; exact absurd h (by simp)
      | ok ys =>
        rw [hrest] at h
        cases h
        obtain ⟨hlen, hget⟩ := ih hrest
        refine ⟨by simp [hlen], ?_⟩
        intro i hi hi2
        match i with
        | 0 => exact hfx
        | i + 1 =>
          exact hget i (by simp at hi; omega) (by simp at hi2; omega)

/-- C1: for every foreign-key RawConstraint whose reference chain ends at a
column that is not itself a foreign key, `resolveConstraints` returns (at the
same position) a constraint whose `ref` is the final chain target, not the
immediately referenced column; the chain may cross schema boundaries since
every hop carries its own schema. -/
theorem resolveConstraints_final_target
    (cat : Catalog) (cs out : List RawConstraint) (i n : Nat) (r z : Ref)
    (hout : resolveConstraints cat cs = .ok out)
    (hi : i < cs.length)
    (hfk : (cs.get ⟨i, hi⟩).type = ConstraintType.foreign)
    (href : (cs.get ⟨i, hi⟩).ref = some r)
    (hchain : FKChainN cat n r z) :
    ∃ hi2 : i < out.length, out.get ⟨i, hi2⟩ = { cs.get ⟨i, hi⟩ with ref := some z } := by
  obtain ⟨hlen, hget⟩ := mapExcept_ok_get hout
  have hi2 : i < out.length := by omega
  refine ⟨hi2, ?_⟩
  have h := hget i hi hi2
  rw [resolveOne_ok hfk href hchain] at h
  injection h with h
  exact h.symm

/-- Catalog for the C1 witness: a cross-schema two-hop chain,
s1.cross_ref.fk references s2.order.customer_id, which itself references
s2.customer.customer_id, which is not a foreign key. -/
def c1Cat : Catalog :=
  [(("s1", "cross_ref"),
      [⟨0, "cross_ref_ibfk_1", "fk", ConstraintType.foreign,
        some ⟨"s2", "order", "customer_id"⟩⟩]),
   (("s2", "order"),
      [⟨0, "order_ibfk_2", "customer_id", ConstraintType.foreign,
        some ⟨"s2", "customer", "customer_id"⟩⟩]),
   (("s2", "customer"),
      [⟨0, "PRIMARY", "customer_id", ConstraintType.primary, none⟩])]

/-- The raw constraints of s1.cross_ref, input of the C1 witness. -/
def c1Cs : List RawConstraint :=
  [⟨0, "cross_ref_ibfk_1", "fk", ConstraintType.foreign,
    some ⟨"s2", "order", "customer_id"⟩⟩]

/-- Expected resolution output for the C1 witness: the ref now points at the
final target in the other schema. -/
def c1Out : List RawConstraint :=
  [⟨0, "cross_ref_ibfk_1", "fk", ConstraintType.foreign,
    some ⟨"s2", "customer", "customer_id"⟩⟩]

theorem resolveConstraints_final_target_witness :
    ∃ hi2 : 0 < c1Out.length,
      c1Out.get ⟨0, hi2⟩ =
        { c1Cs.get ⟨0, by decide⟩ with ref := some ⟨"s2", "customer", "customer_id"⟩ } := by
  apply resolveConstraints_final_target c1Cat c1Cs c1Out 0 1
    ⟨"s2", "order", "customer_id"⟩ ⟨"s2", "customer", "customer_id"⟩ rfl (by decide) rfl rfl
  exact FKChainN.step (c := ⟨0, "order_ibfk_2", "customer_id", ConstraintType.foreign,
    some ⟨"s2", "customer", "customer_id"⟩⟩) rfl rfl (FKChainN.final rfl)

/-- An inner entry of a compound constraint: a raw constraint stripped of its
`name` and `index` fields (spec section 3). -/
structure ConstraintColumn where
  localColumn : String
  ref : Option Ref
deriving DecidableEq, Repr

/-- A compound constraint: all raw constraints sharing one name merged by
ascending index (spec section 3). -/
structure Constraint where
  name : String
  type : ConstraintType
  constraints : List ConstraintColumn
deriving DecidableEq, Repr

/-- The distinct constraint names of a raw list, in order of first
occurrence. -/
def dedupNames : List RawConstraint → List String
  | [] => []
  | c :: cs => c.name :: (dedupNames cs).filter (fun n => decide (n ≠ c.name))

/-- The name-group of `n`: the raw constraints named `n`, in input order. -/
def groupOf (raw : List RawConstraint) (n : String) : List RawConstraint :=
  raw.filter (fun c => decide (c.name = n))

/-- A name-group is valid when no index repeats and no index reaches the
group size (no gap or overflow: the indices are then exactly 0..size-1). -/
def validGroup (g : List RawConstraint) : Prop :=
  (g.map (fun c => c.index)).Nodup ∧ ∀ c ∈ g, c.index < g.length

instance (g : List RawConstraint) : Decidable (validGroup g) :=
  inferInstanceAs
    (Decidable ((g.map (fun c : RawConstraint => c.index)).Nodup ∧ ∀ c ∈ g, c.index < g.length))

/-- Strips the `name` and `index` fields from a raw constraint. -/
def stripRaw (c : RawConstraint) : ConstraintColumn :=
  ⟨c.localColumn, c.ref⟩

/-- Ordering of raw constraints by their column ordinal. -/
def byIndex (a b : RawConstraint) : Prop := a.index ≤ b.index

instance : DecidableRel byIndex := fun a b => Nat.decLe a.index b.index

instance : IsTotal RawConstraint byIndex := ⟨fun a b => Nat.le_total a.index b.index⟩

instance : IsTrans RawConstraint byIndex := ⟨fun _ _ _ h1 h2 => Nat.le_trans h1 h2⟩

/-- Modelled from the spec: `resolveCompoundConstraints` (spec section 4.2,
missing `SchemaDao` source) groups raw constraints by name, sorts each group
by index, and emits one Constraint per group with inner entries stripped of
name and index; it fails with a ValidationError if any group has a duplicate
index or an index at or above the group size. -/
def resolveCompoundConstraints (raw : List RawConstraint) :
    Except DaoError (List Constraint) :=
  mapExcept (fun n =>
    if validGroup (groupOf raw n) then
      .ok ⟨n, (((groupOf raw n).head?).map (fun c => c.type)).getD ConstraintType.primary,
        (List.insertionSort byIndex (groupOf raw n)).map stripRaw⟩
    else
      .error (.validation "duplicate constraint index or index out of range"))
    (dedupNames raw)

/-- A list maps through `mapExcept` successfully exactly when every element
maps successfully. -/
theorem mapExcept_exists_ok_iff {α β ε : Type} {f : α → Except ε β} :
    ∀ {l : List α}, (∃ out, mapExcept f l = .ok out) ↔ ∀ x ∈ l, ∃ y, f x = .ok y := by
  intro l
  induction l with
  | nil => simp [mapExcept]
  | cons x xs ih =>
    constructor
    · rintro ⟨out, hout⟩
      unfold mapExcept at hout
      cases hfx : f x with
      | error e => rw [hfx] at hout; simp at hout
      | ok y =>
        rw [hfx] at hout
        cases hrest : mapExcept f xs with
        | error e => rw [hrest] at hout; simp at hout
        | ok ys =>
          intro a ha
          rcases List.mem_cons.mp ha with rfl | ha
          · exact ⟨y, hfx⟩
          · exact (ih.mp ⟨ys, hrest⟩) a ha
    · intro h
      obtain ⟨y, hy⟩ := h x (List.mem_cons_self x xs)
      obtain ⟨ys, hys⟩ := ih.mpr (fun a ha => h a (List.mem_cons_of_mem x ha))
      exact ⟨y :: ys, by unfold mapExcept; rw [hy, hys]⟩

/-- A `mapExcept` failure always originates from some element of the list. -/
theorem mapExcept_error_mem {α β ε : Type} {f : α → Except ε β} :
    ∀ {l : List α} {e : ε}, mapExcept f l = .error e → ∃ x ∈ l, f x = .error e := by
  intro l
  induction l with
  | nil => intro e h; unfold mapExcept at h; simp at h
  | cons x xs ih =>
    intro e h
    unfold mapExcept at h
    cases hfx : f x with
    | error e2 =>
      rw [hfx] at h
      injection h with h
      exact ⟨x, List.mem_cons_self x xs, by rw [hfx, h]⟩
    | ok y =>
      rw [hfx] at h
      cases hrest : mapExcept f xs with
      | error e2 =>
        rw [hrest] at h
        injection h with h
        obtain ⟨a, ha, hfa⟩ := ih (hrest.trans (by rw [h]))
        exact ⟨a, List.mem_cons_of_mem x ha, hfa⟩
      | ok ys => rw [hrest] at h; simp at h

/-- C2: `resolveCompoundConstraints` fails with a ValidationError exactly
when some name-group has a duplicate index or an index at or above the group
size; otherwise it emits exactly one Constraint per distinct name, its
entries a permutation of the name-group ordered by ascending index and
stripped of their name and index fields. -/
theorem resolveCompoundConstraints_spec (raw : List RawConstraint) :
    ((∃ n ∈ dedupNames raw, ¬ validGroup (groupOf raw n)) ↔
      ∃ msg, resolveCompoundConstraints raw = .error (.validation msg)) ∧
    ∀ out, resolveCompoundConstraints raw = .ok out →
      out.length = (dedupNames raw).length ∧
      ∀ i (h : i < (dedupNames raw).length) (h2 : i < out.length),
        (out.get ⟨i, h2⟩).name = (dedupNames raw).get ⟨i, h⟩ ∧
        ∃ g : List RawConstraint,
          g.Perm (groupOf raw ((dedupNames raw).get ⟨i, h⟩)) ∧
          List.Sorted byIndex g ∧
          (out.get ⟨i, h2⟩).constraints = g.map stripRaw := by
  constructor
  · constructor
    · rintro ⟨n, hn, hbad⟩
      cases hres : resolveCompoundConstraints raw with
      | ok out =>
        exfalso
        obtain ⟨y, hy⟩ :=
          (mapExcept_exists_ok_iff.mp ⟨out, hres⟩) n hn
        rw [if_neg hbad] at hy
        simp at hy
      | error e =>
        obtain ⟨x, _, hfx⟩ := mapExcept_error_mem hres
        by_cases hv : validGroup (groupOf raw x)
        · rw [if_pos hv] at hfx; simp at hfx
        · rw [if_neg hv] at hfx
          injection hfx with hfx
          exact ⟨"duplicate constraint index or index out of range", by rw [← hfx]⟩
    · rintro ⟨msg, herr⟩
      obtain ⟨x, hx, hfx⟩ := mapExcept_error_mem herr
      by_cases hv : validGroup (groupOf raw x)
      · rw [if_pos hv] at hfx; simp at hfx
      · exact ⟨x, hx, hv⟩
  · intro out hout
    obtain ⟨hlen, hget⟩ := mapExcept_ok_get hout
    refine ⟨hlen, ?_⟩
    intro i h h2
    have hfi := hget i h h2
    by_cases hv : validGroup (groupOf raw ((dedupNames raw).get ⟨i, h⟩))
    · rw [if_pos hv] at hfi
      injection hfi with hfi
      refine ⟨by rw [← hfi], List.insertionSort byIndex _, ?_, ?_, by rw [← hfi]⟩
      · exact List.perm_insertionSort byIndex _
      · exact List.sorted_insertionSort byIndex _
    · rw [if_neg hv] at hfi; simp at hfi

theorem resolveCompoundConstraints_spec_witness :
    (∃ msg, resolveCompoundConstraints
        [⟨0, "test", "foo", ConstraintType.primary, none⟩,
         ⟨0, "test", "foo", ConstraintType.primary, none⟩] = .error (.validation msg)) ∧
    (∃ msg, resolveCompoundConstraints
        [⟨1, "test", "foo", ConstraintType.primary, none⟩] = .error (.validation msg)) ∧
    ([⟨"PRIMARY", ConstraintType.primary, [⟨"pk", none⟩]⟩] : List Constraint).length =
      (dedupNames [⟨0, "PRIMARY", "pk", ConstraintType.primary, none⟩]).length := by
  refine ⟨?_, ?_, ?_⟩
  · exact (resolveCompoundConstraints_spec _).1.mp ⟨"test", by decide, by decide⟩
  · exact (resolveCompoundConstraints_spec _).1.mp ⟨"test", by decide, by decide⟩
  · exact ((resolveCompoundConstraints_spec
      [⟨0, "PRIMARY", "pk", ConstraintType.primary, none⟩]).2
      [⟨"PRIMARY", ConstraintType.primary, [⟨"pk", none⟩]⟩] (by rfl)).1

/-- A database row: a mapping from column name to value. -/
abbrev Row := List (String × SqlValue)

/-- The observable row counts of the database, one per table name. -/
def CountState : Type := String → Nat

/-- A multi-table insert batch (spec section 3, TableInsert): table name to
the ordered rows to insert there in one logical operation. -/
abbrev TableInsert := List (String × List Row)

/-- True when a character list contains two consecutive underscores. -/
def listHasSep : List Char → Bool
  | [] => false
  | [_] => false
  | a :: b :: rest => (a == '_' && b == '_') || listHasSep (b :: rest)

/-- True when the table name follows the part-table naming convention
(contains the double-underscore separator). -/
def isPartName (t : String) : Bool := listHasSep t.toList

/-- Master-before-part insertion order (spec section 4.5): tables not named
as parts are inserted before part tables. -/
def insertOrder (data : TableInsert) : TableInsert :=
  data.filter (fun e => !(isPartName e.1)) ++ data.filter (fun e => isPartName e.1)

/-- Increments one table's row count. -/
def bump (st : CountState) (t : String) (k : Nat) : CountState :=
  fun s => if s = t then st s + k else st s

/-- Inserts rows into one table one at a time; the oracle `ok` stands in for
the database driver and decides whether an individual INSERT succeeds. -/
def insertRowsInto (ok : String → Row → Bool) (t : String) :
    CountState → List Row → Except DaoError CountState
  | st, [] => .ok st
  | st, r :: rs =>
    if ok t r = true then insertRowsInto ok t (bump st t 1) rs
    else .error (.database "ER_INSERT_FAILED" "row insert failed")

/-- Runs the per-table inserts of a batch sequentially, threading state. -/
def applyInserts (ok : String → Row → Bool) :
    CountState → TableInsert → Except DaoError CountState
  | st, [] => .ok st
  | st, (t, rows) :: rest =>
    match insertRowsInto ok t st rows with
    | .error e => .error e
    | .ok st2 => applyInserts ok st2 rest

/-- Modelled from the spec: `insertRow` (spec section 4.5, missing
`SchemaDao` source) inserts a whole batch inside one transactional scope in
master-before-part order; any failure rolls the state back to the initial
one. -/
def insertRow (ok : String → Row → Bool) (st : CountState) (data : TableInsert) :
    Except DaoError Unit × CountState :=
  match applyInserts ok st (insertOrder data) with
  | .ok st2 => (.ok (), st2)
  | .error e => (.error e, st)

/-- The total number of rows a batch supplies for one table. -/
def incOf (items : TableInsert) (s : String) : Nat :=
  ((items.filter (fun e => decide (e.1 = s))).map (fun e => e.2.length)).sum

/-- Row counts after a successful single-table insert grow by exactly the
number of rows supplied, and only for that table. -/
theorem insertRowsInto_ok {ok : String → Row → Bool} {t : String} :
    ∀ {rows : List Row} {st st2 : CountState},
      insertRowsInto ok t st rows = .ok st2 →
      ∀ s, st2 s = st s + (if s = t then rows.length else 0) := by
  intro rows
  induction rows with
  | nil =>
    intro st st2 h s
    unfold insertRowsInto at h
    injection h with h
    subst h
    simp
  | cons r rs ih =>
    intro st st2 h s
    unfold insertRowsInto at h
    by_cases hok : ok t r = true
    · rw [if_pos hok] at h
      have hres := ih h s
      rw [hres]
      unfold bump
      by_cases hs : s = t
      · simp [hs]; omega
      · simp [hs]
    · rw [if_neg hok] at h; simp at h

theorem incOf_append (a b : TableInsert) (s : String) :
    incOf (a ++ b) s = incOf a s + incOf b s := by
  unfold incOf
  rw [List.filter_append, List.map_append, List.sum_append]

theorem incOf_cons (e : String × List Row) (rest : TableInsert) (s : String) :
    incOf (e :: rest) s = (if e.1 = s then e.2.length else 0) + incOf rest s := by
  unfold incOf
  rw [List.filter_cons]
  by_cases hs : e.1 = s
  · simp [hs]
  · simp [hs]

/-- Reordering a batch master-first does not change any table's supplied row
total. -/
theorem incOf_insertOrder (data : TableInsert) (s : String) :
    incOf (insertOrder data) s = incOf data s := by
  unfold insertOrder
  induction data with
  | nil => rfl
  | cons e rest ih =>
    rw [incOf_append] at ih
    by_cases hp : isPartName e.1
    · have h1 : List.filter (fun e => !isPartName e.1) (e :: rest) =
          List.filter (fun e => !isPartName e.1) rest := by
        simp [List.filter_cons, hp]
      have h2 : List.filter (fun e => isPartName e.1) (e :: rest) =
          e :: List.filter (fun e => isPartName e.1) rest := by
        simp [List.filter_cons, hp]
      rw [h1, h2, incOf_append, incOf_cons, incOf_cons]
      omega
    · have h1 : List.filter (fun e => !isPartName e.1) (e :: rest) =
          e :: List.filter (fun e => !isPartName e.1) rest := by
        simp [List.filter_cons, hp]
      have h2 : List.filter (fun e => isPartName e.1) (e :: rest) =
          List.filter (fun e => isPartName e.1) rest := by
        simp [List.filter_cons, hp]
      rw [h1, h2, incOf_append, incOf_cons, incOf_cons]
      omega

/-- Sequentially applying a batch adds each table's supplied total to its
count. -/
theorem applyInserts_ok {ok : String → Row → Bool} :
    ∀ {items : TableInsert} {st st2 : CountState},
      applyInserts ok st items = .ok st2 →
      ∀ s, st2 s = st s + incOf items s := by
  intro items
  induction items with
  | nil =>
    intro st st2 h s
    unfold applyInserts at h
    injection h with h
    subst h
    simp [incOf]
  | cons e rest ih =>
    intro st st2 h s
    unfold applyInserts at h
    cases hmid : insertRowsInto ok e.1 st e.2 with
    | error e2 => rw [hmid] at h; simp at h
    | ok stm =>
      rw [hmid] at h
      have h1 := insertRowsInto_ok hmid s
      have h2 := ih h s
      rw [incOf_cons, h2, h1]
      by_cases hs : e.1 = s
      · simp [hs]; omega
      · have hs2 : ¬ s = e.1 := fun hh => hs hh.symm
        simp [hs, hs2]

/-- A table absent from the batch receives no rows. -/
theorem incOf_not_mem {items : TableInsert} {s : String}
    (h : s ∉ items.map Prod.fst) : incOf items s = 0 := by
  induction items with
  | nil => rfl
  | cons e rest ih =>
    rw [incOf_cons]
    simp only [List.map_cons, List.mem_cons] at h
    push_neg at h
    rw [if_neg (fun hh => h.1 hh.symm), ih h.2]

/-- When batch keys are distinct, a present table's supplied total is exactly
its own row list's length. -/
theorem incOf_of_mem {items : TableInsert} {t : String} {rows : List Row}
    (hkeys : (items.map Prod.fst).Nodup) (hm : (t, rows) ∈ items) :
    incOf items t = rows.length := by
  induction items with
  | nil => simp at hm
  | cons e rest ih =>
    simp only [List.map_cons, List.nodup_cons] at hkeys
    rw [incOf_cons]
    rcases List.mem_cons.mp hm with rfl | hm2
    · rw [if_pos rfl, incOf_not_mem hkeys.1]
      simp
    · have ht : t ∈ rest.map Prod.fst := by
        have := List.mem_map_of_mem Prod.fst hm2
        simpa using this
      rw [if_neg (fun hh => hkeys.1 (by rw [hh]; exact ht)), ih hkeys.2 hm2]
      simp

/-- C3: `insertRow` is atomic.  On success every table named in the batch
grows by exactly the number of rows supplied for it (zero included) and
every other table is untouched; on any failure partway through, no table's
row count changes (full rollback). -/
theorem insertRow_atomic (ok : String → Row → Bool) (st : CountState)
    (data : TableInsert) (hkeys : (data.map Prod.fst).Nodup) :
    ((insertRow ok st data).1 = .ok () →
      (∀ t rows, (t, rows) ∈ data → (insertRow ok st data).2 t = st t + rows.length) ∧
      (∀ t, t ∉ data.map Prod.fst → (insertRow ok st data).2 t = st t)) ∧
    (∀ e, (insertRow ok st data).1 = .error e →
      ∀ t, (insertRow ok st data).2 t = st t) := by
  unfold insertRow
  cases happ : applyInserts ok st (insertOrder data) with
  | ok st2 =>
    refine ⟨fun _ => ⟨?_, ?_⟩, fun e he => by simp at he⟩
    · intro t rows hm
      have := applyInserts_ok happ t
      rw [incOf_insertOrder] at this
      simp only []
      rw [this, incOf_of_mem hkeys hm]
    · intro t ht
      have := applyInserts_ok happ t
      rw [incOf_insertOrder, incOf_not_mem ht] at this
      simp only []
      omega
  | error e2 =>
    exact ⟨fun h => by simp at h, fun e he t => rfl⟩

theorem insertRow_atomic_witness :
    ((insertRow (fun _ _ => true) (fun _ => 0)
        [("master", [[("pk", SqlValue.vInt 1)]]),
         ("master__part", [[("part_pk", SqlValue.vInt 1)], [("part_pk", SqlValue.vInt 2)]])]).2
      "master__part" = 0 + 2) ∧
    ((insertRow (fun t _ => !(t == "master__part")) (fun _ => 0)
        [("master", [[("pk", SqlValue.vInt 1)]]),
         ("master__part", [[("part_pk", SqlValue.vInt 1)], [("part_pk", SqlValue.vInt 2)]])]).2
      "master" = 0) := by
  constructor
  · exact ((insertRow_atomic (fun _ _ => true) (fun _ => 0)
      [("master", [[("pk", SqlValue.vInt 1)]]),
       ("master__part", [[("part_pk", SqlValue.vInt 1)], [("part_pk", SqlValue.vInt 2)]])]
      (by decide)).1 rfl).1 "master__part"
      [[("part_pk", SqlValue.vInt 1)], [("part_pk", SqlValue.vInt 2)]] (by decide)
  · exact (insertRow_atomic (fun t _ => !(t == "master__part")) (fun _ => 0)
      [("master", [[("pk", SqlValue.vInt 1)]]),
       ("master__part", [[("part_pk", SqlValue.vInt 1)], [("part_pk", SqlValue.vInt 2)]])]
      (by decide)).2 (.database "ER_INSERT_FAILED" "row insert failed") rfl "master"

/-- One schema's stored data: table name to rows. -/
abbrev SchemaData := List (String × List Row)

/-- True when the value is a string (selector values must be strings). -/
def isStrVal : SqlValue → Bool
  | .vStr _ => true
  | _ => false

/-- String-coerced comparison of a stored cell against a selector string
(spec section 3: filter/selector values are transmitted as strings and
coerced per column type during query construction). -/
def cellMatchesStr (cell : SqlValue) (s : String) : Bool :=
  match cell with
  | .vStr v => v == s
  | .vInt n => toString n == s
  | .vBool b => (s == "true" && b) || (s == "false" && !b)
  | .vNull => false
  | .vBlob _ => false

/-- True when a row satisfies every column of the selector; a non-string
selector value never matches (it is rejected before matching anyway). -/
def rowMatchesSel (row : Row) (sel : List (String × SqlValue)) : Bool :=
  sel.all (fun e =>
    match e.2 with
    | .vStr s =>
      match row.lookup e.1 with
      | some cell => cellMatchesStr cell s
      | none => false
    | _ => false)

/-- True when `child` is named as a part table of `master`
(`master__suffix`). -/
def isPartTableOf (master child : String) : Bool :=
  List.isPrefixOf (master ++ "__").toList child.toList

/-- The (part column, master column) pairs of the part table's foreign keys
that reference the master table in the same schema. -/
def fkColsToMaster (cat : Catalog) (schema part master : String) :
    List (String × String) :=
  (tableConstraints cat schema part).filterMap (fun c =>
    match c.ref with
    | some r =>
      if c.type = ConstraintType.foreign ∧ r.schema = schema ∧ r.table = master then
        some (c.localColumn, r.column)
      else none
    | none => none)

/-- True when a part row references the master row through every linking
foreign-key column pair. -/
def rowRefs (links : List (String × String)) (prow mrow : Row) : Bool :=
  links.all (fun l =>
    match prow.lookup l.1, mrow.lookup l.2 with
    | some a, some b => a == b
    | _, _ => false)

/-- The part-table entries returned alongside a plucked master row: one entry
per part table that has at least one row referencing the master row (part
tables with no matching rows are omitted, as the repository's tests pin
down). -/
def pluckParts (cat : Catalog) (schema : String) (db : SchemaData) (table : String)
    (m : Row) : List (String × List Row) :=
  (db.filter (fun e => isPartTableOf table e.1)).filterMap (fun e =>
    match e.2.filter (fun prow => rowRefs (fkColsToMaster cat schema e.1 table) prow m) with
    | [] => none
    | r :: rs => some (e.1, r :: rs))

/-- Modelled from the spec: `pluck` (spec section 4.4, missing `SchemaDao`
source) fetches the single master row identified by a string-valued unique
selector, together with all part-table rows referencing it; it fails with a
ValidationError when a selector value is not a string or when the selector
does not match exactly one row. -/
def pluck (cat : Catalog) (schema : String) (db : SchemaData) (table : String)
    (sel : List (String × SqlValue)) : Except DaoError (List (String × List Row)) :=
  if sel.all (fun e => isStrVal e.2) = true then
    match db.find? (fun e => decide (e.1 = table)) with
    | none => .error (.notFound "no such table in schema")
    | some entry =>
      match entry.2.filter (fun row => rowMatchesSel row sel) with
      | [m] => .ok ((table, [m]) :: pluckParts cat schema db table m)
      | _ => .error (.validation "selector must match exactly one row")
  else .error (.validation "selector values must all be strings")

/-- C4: `pluck` fails with a ValidationError when some selector value is not
a string, or when the selector matches zero or several master rows; when it
matches exactly one, the result heads with the master table mapped to that
one row, contains an entry with exactly the referencing rows for every part
table having at least one, and no entry for any other table. -/
theorem pluck_spec (cat : Catalog) (schema : String) (db : SchemaData)
    (table : String) (sel : List (String × SqlValue)) :
    ((∃ e ∈ sel, isStrVal e.2 = false) →
      isValidationError (pluck cat schema db table sel) = true) ∧
    (∀ entry, sel.all (fun e => isStrVal e.2) = true →
      db.find? (fun e => decide (e.1 = table)) = some entry →
      (entry.2.filter (fun row => rowMatchesSel row sel)).length ≠ 1 →
      isValidationError (pluck cat schema db table sel) = true) ∧
    (∀ entry m, sel.all (fun e => isStrVal e.2) = true →
      db.find? (fun e => decide (e.1 = table)) = some entry →
      entry.2.filter (fun row => rowMatchesSel row sel) = [m] →
      ∃ out, pluck cat schema db table sel = .ok out ∧
        out.head? = some (table, [m]) ∧
        (∀ p pdata, (p, pdata) ∈ db → isPartTableOf table p = true →
          pdata.filter (fun prow => rowRefs (fkColsToMaster cat schema p table) prow m) ≠ [] →
          (p, pdata.filter (fun prow => rowRefs (fkColsToMaster cat schema p table) prow m))
            ∈ out) ∧
        (∀ p, p ∈ out.map Prod.fst → p ≠ table →
          isPartTableOf table p = true ∧ ∃ pdata, (p, pdata) ∈ db ∧
            pdata.filter (fun prow => rowRefs (fkColsToMaster cat schema p table) prow m) ≠ [])) := by
  refine ⟨?_, ?_, ?_⟩
  · rintro ⟨e, he, hns⟩
    unfold pluck
    have hall : ¬ (sel.all (fun e => isStrVal e.2) = true) := by
      simp only [List.all_eq_true]
      intro h
      rw [h e he] at hns
      exact Bool.noConfusion hns
    rw [if_neg hall]
    rfl
  · intro entry hstr hfind hlen
    cases hfil : entry.2.filter (fun row => rowMatchesSel row sel) with
    | nil => simp [pluck, hstr, hfind, hfil, isValidationError]
    | cons m rest =>
      cases rest with
      | nil => rw [hfil] at hlen; simp at hlen
      | cons m2 rest2 => simp [pluck, hstr, hfind, hfil, isValidationError]
  · intro entry m hstr hfind hfil
    refine ⟨(table, [m]) :: pluckParts cat schema db table m, ?_, rfl, ?_, ?_⟩
    · simp [pluck, hstr, hfind, hfil]
    · intro p pdata hpd hpart hne
      apply List.mem_cons_of_mem
      unfold pluckParts
      rw [List.mem_filterMap]
      refine ⟨(p, pdata), List.mem_filter.mpr ⟨hpd, hpart⟩, ?_⟩
      cases hf : pdata.filter (fun prow => rowRefs (fkColsToMaster cat schema p table) prow m) with
      | nil => exact absurd hf hne
      | cons r rs => rfl
    · intro p hp hne
      simp only [List.map_cons, List.mem_cons] at hp
      rcases hp with hp | hp
      · exact absurd hp hne
      · obtain ⟨q, hq, hmem⟩ := List.mem_map.mp hp
        unfold pluckParts at hq
        rw [List.mem_filterMap] at hq
        obtain ⟨e, hef, hfe⟩ := hq
        have hedb : e ∈ db := (List.mem_filter.mp hef).1
        have hepart : isPartTableOf table e.1 = true := (List.mem_filter.mp hef).2
        cases hf : e.2.filter (fun prow => rowRefs (fkColsToMaster cat schema e.1 table) prow m) with
        | nil => rw [hf] at hfe; simp at hfe
        | cons r rs =>
          rw [hf] at hfe
          injection hfe with hfe
          have hq1 : q.1 = e.1 := by rw [← hfe]
          have hp1 : p = e.1 := by rw [← hmem, hq1]
          subst hp1
          refine ⟨hepart, e.2, ?_, ?_⟩
          · have : e = (e.1, e.2) := rfl
            rw [← this]; exact hedb
          · rw [hf]; simp

/-- Sample schema data for the pluck witness: a master table with three rows
and two part tables, mirroring the repository's sample schema. -/
def c4Db : SchemaData :=
  [("master",
     [[("pk", SqlValue.vStr "1000")],
      [("pk", SqlValue.vStr "1001")],
      [("pk", SqlValue.vStr "1002")]]),
   ("master__part",
     [[("part_pk", SqlValue.vStr "100"), ("master", SqlValue.vStr "1001")],
      [("part_pk", SqlValue.vStr "101"), ("master", SqlValue.vStr "1002")]]),
   ("master__part2",
     [[("part2_pk", SqlValue.vStr "100"), ("master", SqlValue.vStr "1002")]])]

/-- Constraint catalog for the pluck witness: each part table has a foreign
key into the master table. -/
def c4Cat : Catalog :=
  [(("helium_sample", "master__part"),
     [⟨0, "master__part_ibfk_1", "master", ConstraintType.foreign,
       some ⟨"helium_sample", "master", "pk"⟩⟩]),
   (("helium_sample", "master__part2"),
     [⟨0, "master__part2_ibfk_1", "master", ConstraintType.foreign,
       some ⟨"helium_sample", "master", "pk"⟩⟩])]

theorem pluck_spec_witness :
    isValidationError
      (pluck c4Cat "helium_sample" c4Db "master" [("pk", SqlValue.vBool true)]) = true ∧
    isValidationError
      (pluck c4Cat "helium_sample" c4Db "master" [("pk", SqlValue.vStr "999")]) = true ∧
    ∃ out, pluck c4Cat "helium_sample" c4Db "master" [("pk", SqlValue.vStr "1001")] = .ok out ∧
      out.head? = some ("master", [[("pk", SqlValue.vStr "1001")]]) := by
  refine ⟨?_, ?_, ?_⟩
  · exact (pluck_spec c4Cat "helium_sample" c4Db "master" [("pk", SqlValue.vBool true)]).1
      ⟨("pk", SqlValue.vBool true), by decide, rfl⟩
  · exact (pluck_spec c4Cat "helium_sample" c4Db "master" [("pk", SqlValue.vStr "999")]).2.1
      ("master",
        [[("pk", SqlValue.vStr "1000")],
         [("pk", SqlValue.vStr "1001")],
         [("pk", SqlValue.vStr "1002")]]) rfl rfl (by decide)
  · obtain ⟨out, h1, h2, _, _⟩ :=
      (pluck_spec c4Cat "helium_sample" c4Db "master" [("pk", SqlValue.vStr "1001")]).2.2
        ("master",
          [[("pk", SqlValue.vStr "1000")],
           [("pk", SqlValue.vStr "1001")],
           [("pk", SqlValue.vStr "1002")]])
        [("pk", SqlValue.vStr "1001")] rfl rfl (by decide)
    exact ⟨out, h1, h2⟩

/-- Modelled from the spec: pagination of `content` (spec section 4.4,
missing `SchemaDao` source).  `limit` defaults to 25 and must be at least 1,
`page` is 1-indexed and defaults to 1, and the resulting OFFSET
`(page - 1) * limit` must fall inside the table or the call fails with a
ValidationError.  Returns the requested row window plus the total count. -/
def contentPage (rows : List Row) (page limit : Option Int) :
    Except DaoError (List Row × Nat) :=
  if limit.getD 25 < 1 then .error (.validation "limit must be at least 1")
  else if page.getD 1 < 1 then .error (.validation "page must be positive")
  else if (rows.length : Int) ≤ (page.getD 1 - 1) * limit.getD 25 then
    .error (.validation "page out of range")
  else
    .ok ((rows.drop ((page.getD 1 - 1) * limit.getD 25).toNat).take (limit.getD 25).toNat,
      rows.length)

/-- C5: with `limit` omitted, `content` returns 25 rows when available; any
limit below 1 fails with a ValidationError; any limit of at least 1 returns
exactly that many rows when available, from the 1-indexed page's offset; a
non-positive page fails, and a page whose offset falls outside the table
fails. -/
theorem content_pagination_spec (rows : List Row) :
    (25 ≤ rows.length →
      contentPage rows none none = .ok (rows.take 25, rows.length) ∧
      (rows.take 25).length = 25) ∧
    (∀ (page : Option Int) (l : Int), l < 1 →
      isValidationError (contentPage rows page (some l)) = true) ∧
    (∀ p l : Int, 1 ≤ l → 1 ≤ p → (p - 1) * l + l ≤ (rows.length : Int) →
      contentPage rows (some p) (some l) =
        .ok ((rows.drop ((p - 1) * l).toNat).take l.toNat, rows.length) ∧
      ((rows.drop ((p - 1) * l).toNat).take l.toNat).length = l.toNat) ∧
    (∀ (p : Int) (limit : Option Int), p < 1 →
      isValidationError (contentPage rows (some p) limit) = true) ∧
    (∀ p l : Int, 1 ≤ l → 1 ≤ p → (rows.length : Int) ≤ (p - 1) * l →
      isValidationError (contentPage rows (some p) (some l)) = true) := by
  refine ⟨?_, ?_, ?_, ?_, ?_⟩
  · intro h
    constructor
    · simp only [contentPage, Option.getD_none]
      rw [if_neg (by norm_num), if_neg (by norm_num), if_neg (by push_cast; omega)]
      norm_num
      omega
    · rw [List.length_take]
      omega
  · intro page l hl
    simp only [contentPage, Option.getD_some]
    rw [if_pos hl]
    rfl
  · intro p l hl hp hbound
    have hq0 : 0 ≤ (p - 1) * l := mul_nonneg (by omega) (by omega)
    constructor
    · simp only [contentPage, Option.getD_some]
      rw [if_neg (by omega), if_neg (by omega), if_neg (by omega)]
    · rw [List.length_take, List.length_drop]
      omega
  · intro p limit hp
    by_cases hl : limit.getD 25 < 1
    · simp only [contentPage]
      rw [if_pos hl]
      rfl
    · simp only [contentPage, Option.getD_some]
      rw [if_neg hl, if_pos hp]
      rfl
  · intro p l hl hp hout
    simp only [contentPage, Option.getD_some]
    rw [if_neg (by omega), if_neg (by omega), if_pos hout]
    rfl

theorem content_pagination_spec_witness :
    (contentPage (List.replicate 30 ([] : Row)) none none =
        .ok ((List.replicate 30 ([] : Row)).take 25, (List.replicate 30 ([] : Row)).length) ∧
      ((List.replicate 30 ([] : Row)).take 25).length = 25) ∧
    isValidationError (contentPage (List.replicate 30 ([] : Row)) none (some (-1))) = true ∧
    isValidationError (contentPage (List.replicate 30 ([] : Row)) none (some 0)) = true ∧
    (((List.replicate 30 ([] : Row)).drop (((2 : Int) - 1) * 10).toNat).take
        (10 : Int).toNat).length = (10 : Int).toNat ∧
    isValidationError (contentPage (List.replicate 30 ([] : Row)) (some 0) none) = true ∧
    isValidationError (contentPage (List.replicate 30 ([] : Row)) (some 10000) (some 25)) = true := by
  refine ⟨?_, ?_, ?_, ?_, ?_, ?_⟩
  · exact (content_pagination_spec (List.replicate 30 ([] : Row))).1 (by decide)
  · exact (content_pagination_spec (List.replicate 30 ([] : Row))).2.1 none (-1) (by norm_num)
  · exact (content_pagination_spec (List.replicate 30 ([] : Row))).2.1 none 0 (by norm_num)
  · exact ((content_pagination_spec (List.replicate 30 ([] : Row))).2.2.1 2 10
      (by norm_num) (by norm_num) (by norm_num)).2
  · exact (content_pagination_spec (List.replicate 30 ([] : Row))).2.2.2.1 0 none (by norm_num)
  · exact (content_pagination_spec (List.replicate 30 ([] : Row))).2.2.2.2 10000 25
      (by norm_num) (by norm_num) (by norm_num)

/-- A content filter as transmitted by the client (spec section 3); the
operation is a raw string so unknown operations are representable. -/
structure Filter where
  param : String
  op : String
  value : String
deriving DecidableEq, Repr

/-- A bound WHERE predicate produced from a validated filter.  The column
and the bound value are carried separately: values are always bound
parameters, never concatenated into SQL. -/
inductive WherePredicate
  | cmp : String → String → String → WherePredicate
  | isNull : String → WherePredicate
  | isNotNull : String → WherePredicate
deriving DecidableEq, Repr

/-- Modelled from the spec: filter translation of `content` (spec section
4.4, missing `SchemaDao` source).  Identifiers are validated against the
known column list; `eq`, `lt` and `gt` become bound comparisons; `is` and
`isnot` accept only the literal value `null`; anything else fails with a
ValidationError before any SQL is built. -/
def translateFilter (cols : List String) (f : Filter) : Except DaoError WherePredicate :=
  if f.param ∈ cols then
    if f.op = "eq" then .ok (.cmp f.param "=" f.value)
    else if f.op = "lt" then .ok (.cmp f.param "<" f.value)
    else if f.op = "gt" then .ok (.cmp f.param ">" f.value)
    else if f.op = "is" then
      if f.value = "null" then .ok (.isNull f.param)
      else .error (.validation "unrecognized value")
    else if f.op = "isnot" then
      if f.value = "null" then .ok (.isNotNull f.param)
      else .error (.validation "unrecognized value")
    else .error (.validation "unknown filter operation")
  else .error (.validation "unknown column")

/-- C6: an `is` or `isnot` filter on a known column is accepted exactly when
its value is the literal lowercase token `null`, failing with a
ValidationError on any other value; and a filter whose operation is outside
eq, lt, gt, is, isnot always fails with a ValidationError, so no predicate
is ever built from it. -/
theorem translateFilter_spec (cols : List String) (f : Filter) :
    ((f.op = "is" ∨ f.op = "isnot") → f.param ∈ cols →
      ((∃ w, translateFilter cols f = .ok w) ↔ f.value = "null") ∧
      (f.value ≠ "null" → isValidationError (translateFilter cols f) = true)) ∧
    (f.op ∉ (["eq", "lt", "gt", "is", "isnot"] : List String) →
      isValidationError (translateFilter cols f) = true) := by
  constructor
  · intro hop hp
    rcases hop with hop | hop
    · unfold translateFilter
      rw [if_pos hp, hop]
      rw [if_neg (by decide), if_neg (by decide), if_neg (by decide), if_pos rfl]
      constructor
      · constructor
        · rintro ⟨w, hw⟩
          by_cases hv : f.value = "null"
          · exact hv
          · rw [if_neg hv] at hw; exact absurd hw (by simp)
        · intro hv
          rw [if_pos hv]
          exact ⟨.isNull f.param, rfl⟩
      · intro hv
        rw [if_neg hv]
        rfl
    · unfold translateFilter
      rw [if_pos hp, hop]
      rw [if_neg (by decide), if_neg (by decide), if_neg (by decide), if_neg (by decide),
        if_pos rfl]
      constructor
      · constructor
        · rintro ⟨w, hw⟩
          by_cases hv : f.value = "null"
          · exact hv
          · rw [if_neg hv] at hw; exact absurd hw (by simp)
        · intro hv
          rw [if_pos hv]
          exact ⟨.isNotNull f.param, rfl⟩
      · intro hv
        rw [if_neg hv]
        rfl
  · intro hop
    simp only [List.mem_cons, List.not_mem_nil, or_false] at hop
    push_neg at hop
    obtain ⟨h1, h2, h3, h4, h5⟩ := hop
    unfold translateFilter
    by_cases hp : f.param ∈ cols
    · rw [if_pos hp, if_neg h1, if_neg h2, if_neg h3, if_neg h4, if_neg h5]
      rfl
    · rw [if_neg hp]
      rfl

theorem translateFilter_spec_witness :
    (∃ w, translateFilter ["product_id", "blob"] ⟨"blob", "is", "null"⟩ = .ok w) ∧
    isValidationError
      (translateFilter ["product_id", "blob"] ⟨"blob", "is", "(unknown)"⟩) = true ∧
    isValidationError
      (translateFilter ["product_id", "blob"] ⟨"blob", "isnot", "(unknown)"⟩) = true ∧
    isValidationError
      (translateFilter ["product_id", "blob"] ⟨"product_id", "eq2", "20"⟩) = true := by
  refine ⟨?_, ?_, ?_, ?_⟩
  · exact ((translateFilter_spec ["product_id", "blob"] ⟨"blob", "is", "null"⟩).1
      (Or.inl rfl) (by decide)).1.mpr rfl
  · exact ((translateFilter_spec ["product_id", "blob"] ⟨"blob", "is", "(unknown)"⟩).1
      (Or.inl rfl) (by decide)).2 (by decide)
  · exact ((translateFilter_spec ["product_id", "blob"] ⟨"blob", "isnot", "(unknown)"⟩).1
      (Or.inr rfl) (by decide)).2 (by decide)
  · exact (translateFilter_spec ["product_id", "blob"] ⟨"product_id", "eq2", "20"⟩).2
      (by decide)

/-- Abstraction of the Moment library used by the client formatters
(src/client/app/tables/datatable.component.ts and api-data-source.ts):
a validity test plus a formatter per display format.  Moment is external
JavaScript; the embedded code depends only on this interface. -/
structure MomentLike where
  isValid : String → Bool
  format : String → String → String

/-- `DatatableComponent.formatMoment` / `ApiDataSource.reformat`: formats a
source string when Moment parses it as valid, and returns null (`none`)
otherwise instead of throwing. -/
def formatMoment (m : MomentLike) (fmt source : String) : Option String :=
  if m.isValid source then some (m.format fmt source) else none

/-- The header fields the client cell formatter dispatches on. -/
structure TableHeaderFmt where
  name : String
  type : String
  rawType : String
deriving DecidableEq, Repr

/-- JavaScript truthiness of a cell value, as used by the `!!` coercion in
`formatRows`. -/
def jsTruthy : SqlValue → Bool
  | .vInt n => decide (n ≠ 0)
  | .vBool b => b
  | .vStr s => decide (s ≠ "")
  | .vNull => false
  | .vBlob _ => true

/-- Applies `formatMoment` to one cell.  Temporal cells arrive on the wire
as strings or null; a null cell stays null (Moment treats null as invalid),
and an unparseable string becomes null. -/
def formatTemporalCell (m : MomentLike) (fmt : String) : SqlValue → SqlValue
  | .vStr s =>
    match formatMoment m fmt s with
    | some out => .vStr out
    | none => .vNull
  | v => v

/-- One cell of `ApiDataSource.formatRows` / `DatatableComponent.formatRows`:
date and datetime columns are reformatted through Moment, boolean-typed
columns are coerced with `!!`. -/
def formatCell (m : MomentLike) (dateFmt datetimeFmt : String)
    (header : TableHeaderFmt) (v : SqlValue) : SqlValue :=
  if header.type = "date" then formatTemporalCell m dateFmt v
  else if header.type = "datetime" ∨ header.type = "timestamp" then
    formatTemporalCell m datetimeFmt v
  else if header.type = "boolean" then .vBool (jsTruthy v)
  else v

/-- Modelled from the spec: the fixed placeholder string the server renders
for every non-null blob cell (`BLOB_STRING_REPRESENTATION` in the missing
`src/common/constants` source); only its fixedness matters here. -/
def BLOB_STRING_REPRESENTATION : String := "BLOB"

/-- Modelled from the spec: server-side blob formatting (spec section 4.4,
missing `SchemaDao` source): every non-null blob cell renders as the fixed
placeholder, never the raw bytes; null stays null. -/
def formatBlobCell : SqlValue → SqlValue
  | .vBlob _ => .vStr BLOB_STRING_REPRESENTATION
  | v => v

/-- C7: row formatting is total and never throws.  A date or datetime string
Moment cannot parse formats to null rather than raising; a valid one formats
to Moment's output; boolean-typed cells stored as 0 or 1 coerce to false or
true; and every non-null blob cell renders as the fixed placeholder string,
independent of its bytes. -/
theorem row_formatting_safe (m : MomentLike) (header : TableHeaderFmt)
    (dateFmt datetimeFmt : String) :
    (∀ s : String, m.isValid s = false →
      (header.type = "date" → formatCell m dateFmt datetimeFmt header (.vStr s) = .vNull) ∧
      (header.type = "datetime" ∨ header.type = "timestamp" →
        formatCell m dateFmt datetimeFmt header (.vStr s) = .vNull)) ∧
    (∀ s : String, m.isValid s = true → header.type = "date" →
      formatCell m dateFmt datetimeFmt header (.vStr s) = .vStr (m.format dateFmt s)) ∧
    (header.type = "boolean" →
      formatCell m dateFmt datetimeFmt header (.vInt 0) = .vBool false ∧
      formatCell m dateFmt datetimeFmt header (.vInt 1) = .vBool true) ∧
    (∀ bytes : List Nat, formatBlobCell (.vBlob bytes) = .vStr BLOB_STRING_REPRESENTATION) := by
  refine ⟨?_, ?_, ?_, fun bytes => rfl⟩
  · intro s hbad
    constructor
    · intro hd
      unfold formatCell
      rw [if_pos hd]
      simp [formatTemporalCell, formatMoment, hbad]
    · intro hdt
      have hnd : ¬ header.type = "date" := by
        rcases hdt with hdt | hdt <;> rw [hdt] <;> decide
      unfold formatCell
      rw [if_neg hnd, if_pos hdt]
      simp [formatTemporalCell, formatMoment, hbad]
  · intro s hgood hd
    unfold formatCell
    rw [if_pos hd]
    simp [formatTemporalCell, formatMoment, hgood]
  · intro hb
    have hnd : ¬ header.type = "date" := by rw [hb]; decide
    have hndt : ¬ (header.type = "datetime" ∨ header.type = "timestamp") := by
      rw [hb]; decide
    constructor <;> unfold formatCell <;>
      rw [if_neg hnd, if_neg hndt, if_pos hb] <;> rfl

theorem row_formatting_safe_witness :
    (formatCell ⟨fun s => s == "2017-07-01", fun _ s => s⟩ "l" "LLL"
      ⟨"date", "date", "date"⟩ (.vStr "not-a-date") = .vNull) ∧
    (formatCell ⟨fun s => s == "2017-07-01", fun _ s => s⟩ "l" "LLL"
      ⟨"time", "datetime", "datetime"⟩ (.vStr "not-a-date") = .vNull) ∧
    (formatCell ⟨fun s => s == "2017-07-01", fun _ s => s⟩ "l" "LLL"
      ⟨"flag", "boolean", "tinyint(1)"⟩ (.vInt 0) = .vBool false) ∧
    (formatCell ⟨fun s => s == "2017-07-01", fun _ s => s⟩ "l" "LLL"
      ⟨"flag", "boolean", "tinyint(1)"⟩ (.vInt 1) = .vBool true) ∧
    formatBlobCell (.vBlob [0, 255, 31]) = .vStr BLOB_STRING_REPRESENTATION := by
  refine ⟨?_, ?_, ?_, ?_, ?_⟩
  · exact ((row_formatting_safe ⟨fun s => s == "2017-07-01", fun _ s => s⟩
      ⟨"date", "date", "date"⟩ "l" "LLL").1 "not-a-date" (by decide)).1 rfl
  · exact ((row_formatting_safe ⟨fun s => s == "2017-07-01", fun _ s => s⟩
      ⟨"time", "datetime", "datetime"⟩ "l" "LLL").1 "not-a-date" (by decide)).2 (Or.inl rfl)
  · exact ((row_formatting_safe ⟨fun s => s == "2017-07-01", fun _ s => s⟩
      ⟨"flag", "boolean", "tinyint(1)"⟩ "l" "LLL").2.2.1 rfl).1
  · exact ((row_formatting_safe ⟨fun s => s == "2017-07-01", fun _ s => s⟩
      ⟨"flag", "boolean", "tinyint(1)"⟩ "l" "LLL").2.2.1 rfl).2
  · exact (row_formatting_safe ⟨fun s => s == "2017-07-01", fun _ s => s⟩
      ⟨"flag", "boolean", "tinyint(1)"⟩ "l" "LLL").2.2.2 [0, 255, 31]

/-- The catalog facts about one column that drive default-value resolution. -/
structure ColumnMetaInfo where
  name : String
  autoIncrement : Bool
  literalDefault : Option String
deriving DecidableEq, Repr

/-- Modelled from the spec: the defaultValue resolution of `headers` (spec
section 4.3, missing `SchemaDao` source).  Auto-increment primary-key
columns resolve to the next insertable integer (current maximum plus one)
regardless of the catalog literal; a CURRENT_TIMESTAMP literal resolves to
the live current date-time string `now`; other literals pass through; no
default resolves to null. -/
def resolveDefaultValue (currentMax : Nat) (now : String) (col : ColumnMetaInfo) : SqlValue :=
  if col.autoIncrement then .vInt (currentMax + 1)
  else
    match col.literalDefault with
    | some lit => if lit = "CURRENT_TIMESTAMP" then .vStr now else .vStr lit
    | none => .vNull

/-- C8: an auto-increment primary-key column's defaultValue resolves to the
next insertable integer, current maximum plus one (equivalently total rows
plus one when the keys are dense), independent of the catalog's literal
default; and a CURRENT_TIMESTAMP default resolves to the live date-time
string instead of the literal token. -/
theorem defaults_resolution_spec (currentMax : Nat) (now : String) (col : ColumnMetaInfo) :
    (col.autoIncrement = true →
      resolveDefaultValue currentMax now col = .vInt (currentMax + 1) ∧
      (∀ lit : Option String,
        resolveDefaultValue currentMax now { col with literalDefault := lit } =
          .vInt (currentMax + 1)) ∧
      (∀ totalRows : Nat, currentMax = totalRows →
        resolveDefaultValue currentMax now col = .vInt (totalRows + 1))) ∧
    (col.autoIncrement = false → col.literalDefault = some "CURRENT_TIMESTAMP" →
      resolveDefaultValue currentMax now col = .vStr now ∧
      (now ≠ "CURRENT_TIMESTAMP" →
        resolveDefaultValue currentMax now col ≠ .vStr "CURRENT_TIMESTAMP")) := by
  constructor
  · intro hai
    refine ⟨?_, ?_, ?_⟩
    · unfold resolveDefaultValue
      rw [if_pos hai]
    · intro lit
      unfold resolveDefaultValue
      rw [if_pos hai]
    · intro totalRows ht
      unfold resolveDefaultValue
      rw [if_pos hai, ht]
  · intro hai hlit
    have hres : resolveDefaultValue currentMax now col = .vStr now := by
      simp [resolveDefaultValue, hai, hlit]
    refine ⟨hres, ?_⟩
    intro hnow hcontra
    rw [hres] at hcontra
    injection hcontra with hcontra
    exact hnow hcontra

theorem defaults_resolution_spec_witness :
    resolveDefaultValue 12 "2017-01-01 12:00:00" ⟨"pk", true, some "0"⟩ = .vInt 13 ∧
    resolveDefaultValue 12 "2017-01-01 12:00:00"
      ⟨"datetime_now", false, some "CURRENT_TIMESTAMP"⟩ = .vStr "2017-01-01 12:00:00" ∧
    resolveDefaultValue 12 "2017-01-01 12:00:00"
        ⟨"datetime_now", false, some "CURRENT_TIMESTAMP"⟩ ≠ .vStr "CURRENT_TIMESTAMP" := by
  refine ⟨?_, ?_, ?_⟩
  · exact ((defaults_resolution_spec 12 "2017-01-01 12:00:00" ⟨"pk", true, some "0"⟩).1
      rfl).1
  · exact ((defaults_resolution_spec 12 "2017-01-01 12:00:00"
      ⟨"datetime_now", false, some "CURRENT_TIMESTAMP"⟩).2 rfl rfl).1
  · exact ((defaults_resolution_spec 12 "2017-01-01 12:00:00"
      ⟨"datetime_now", false, some "CURRENT_TIMESTAMP"⟩).2 rfl rfl).2 (by decide)

/-- One table as the schema catalog describes it: name, column names, and
current row count. -/
structure CatTable where
  name : String
  columns : List String
  rowCount : Nat
deriving DecidableEq, Repr

/-- The table catalog: schema name to its tables. -/
abbrev DbCatalog := List (String × List CatTable)

/-- The assembled table metadata (spec section 3, TableMeta), with headers
reduced to the per-column names that determine their count. -/
structure TableMetaM where
  schema : String
  name : String
  headers : List String
  totalRows : Nat
  parts : List String
deriving DecidableEq, Repr

/-- Modelled from the spec: `meta` (spec section 4.3, missing `SchemaDao`
source) fails with NotFoundError when the schema or table is missing and
otherwise assembles headers (one per catalog column), the row count, and the
part tables: the same-schema tables whose raw name matches `table__*`. -/
def metaOf (dbcat : DbCatalog) (schema table : String) : Except DaoError TableMetaM :=
  match dbcat.find? (fun e => decide (e.1 = schema)) with
  | none => .error (.notFound "schema not found")
  | some entry =>
    match entry.2.find? (fun t => decide (t.name = table)) with
    | none => .error (.notFound "table not found")
    | some tbl =>
      .ok ⟨schema, table, tbl.columns, tbl.rowCount,
        (entry.2.filter (fun t => isPartTableOf table t.name)).map (fun t => t.name)⟩

/-- C9: for a valid schema and table, `meta` succeeds with exactly one
header per catalog column, and its parts are exactly the same-schema tables
whose name matches the `table__*` convention; when no table is named as a
part of this one (as for a part table itself in a schema without nested
parts), the parts list is empty. -/
theorem meta_spec (dbcat : DbCatalog) (schema table : String)
    (entry : String × List CatTable) (tbl : CatTable)
    (hschema : dbcat.find? (fun e => decide (e.1 = schema)) = some entry)
    (htable : entry.2.find? (fun t => decide (t.name = table)) = some tbl) :
    ∃ m, metaOf dbcat schema table = .ok m ∧
      m.headers.length = tbl.columns.length ∧
      (∀ p, p ∈ m.parts ↔ ∃ t ∈ entry.2, t.name = p ∧ isPartTableOf table p = true) ∧
      ((∀ t ∈ entry.2, isPartTableOf table t.name = false) → m.parts = []) := by
  refine ⟨⟨schema, table, tbl.columns, tbl.rowCount,
    (entry.2.filter (fun t => isPartTableOf table t.name)).map (fun t => t.name)⟩,
    ?_, rfl, ?_, ?_⟩
  · simp [metaOf, hschema, htable]
  · intro p
    constructor
    · intro hp
      obtain ⟨t, ht, hname⟩ := List.mem_map.mp hp
      have htmem : t ∈ entry.2 := (List.mem_filter.mp ht).1
      have htpart : isPartTableOf table t.name = true := (List.mem_filter.mp ht).2
      exact ⟨t, htmem, hname, by rw [← hname]; exact htpart⟩
    · rintro ⟨t, ht, hname, hpart⟩
      apply List.mem_map.mpr
      refine ⟨t, List.mem_filter.mpr ⟨ht, by rw [hname]; exact hpart⟩, hname⟩
  · intro hnone
    have : entry.2.filter (fun t => isPartTableOf table t.name) = [] := by
      rw [List.filter_eq_nil_iff]
      intro t ht
      rw [hnone t ht]
      exact Bool.noConfusion
    rw [this]
    rfl

/-- Catalog for the C9 witness: the sample schema with a master table and
its two part tables. -/
def c9Cat : DbCatalog :=
  [("helium_sample",
    [⟨"master", ["pk"], 3⟩,
     ⟨"master__part", ["part_pk", "master"], 2⟩,
     ⟨"master__part2", ["part2_pk", "master"], 1⟩])]

theorem meta_spec_witness :
    (∃ m, metaOf c9Cat "helium_sample" "master" = .ok m ∧
      m.headers.length = 1 ∧ "master__part" ∈ m.parts) ∧
    (∃ m2, metaOf c9Cat "helium_sample" "master__part" = .ok m2 ∧
      m2.headers.length = 2 ∧ m2.parts = []) := by
  constructor
  · obtain ⟨m, h1, h2, h3, _⟩ := meta_spec c9Cat "helium_sample" "master"
      ("helium_sample",
        [⟨"master", ["pk"], 3⟩,
         ⟨"master__part", ["part_pk", "master"], 2⟩,
         ⟨"master__part2", ["part2_pk", "master"], 1⟩])
      ⟨"master", ["pk"], 3⟩ rfl rfl
    exact ⟨m, h1, h2, (h3 "master__part").mpr
      ⟨⟨"master__part", ["part_pk", "master"], 2⟩, by decide, rfl, by decide⟩⟩
  · obtain ⟨m2, h1, h2, _, h4⟩ := meta_spec c9Cat "helium_sample" "master__part"
      ("helium_sample",
        [⟨"master", ["pk"], 3⟩,
         ⟨"master__part", ["part_pk", "master"], 2⟩,
         ⟨"master__part2", ["part2_pk", "master"], 1⟩])
      ⟨"master__part", ["part_pk", "master"], 2⟩ rfl rfl
    exact ⟨m2, h1, h2, h4 (by decide)⟩

/-- The error both Helium accessors throw before start() has completed; it
carries the message Not start()d yet in the source
(src/server/src/helium.ts). -/
inductive AccessorError
  | notStarted
deriving DecidableEq, Repr

/-- The mutable fields of the Helium class (src/server/src/helium.ts):
`app` and `db` both start as null and are assigned by start(). -/
structure HeliumState (App Db : Type) where
  app : Option App
  db : Option Db

/-- A freshly constructed Helium instance: both fields null. -/
def heliumInit (App Db : Type) : HeliumState App Db := ⟨none, none⟩

/-- The `express` accessor: throws when `app` is still null. -/
def heliumExpress {App Db : Type} (s : HeliumState App Db) : Except AccessorError App :=
  match s.app with
  | none => .error .notStarted
  | some a => .ok a

/-- The `database` accessor: throws when `db` is still null. -/
def heliumDatabase {App Db : Type} (s : HeliumState App Db) : Except AccessorError Db :=
  match s.db with
  | none => .error .notStarted
  | some d => .ok d

/-- `Helium.start`: builds the Application and the DatabaseHelper and
assigns both fields.  The source assigns `this.db` mid-body and `this.app`
at the end, but the body contains no await between the two assignments and
JavaScript runs a function body without preemption, so no accessor can run
between them; start is therefore embedded as the atomic composite of its
assignments. -/
def heliumStart {App Db : Type} (s : HeliumState App Db) (app : App) (db : Db) :
    HeliumState App Db :=
  { s with app := some app, db := some db }

/-- The states a Helium instance can be observed in: freshly constructed, or
after some start() call completed. -/
inductive HeliumReachable (App Db : Type) : HeliumState App Db → Prop
  | init : HeliumReachable App Db (heliumInit App Db)
  | started (s : HeliumState App Db) (app : App) (db : Db) :
      HeliumReachable App Db s → HeliumReachable App Db (heliumStart s app db)

/-- C10: before start() completes, both public accessors throw the
not-started Error; after a start() call completes, `express` and `database`
return exactly the Application and DatabaseHelper that call created; and in
every observable state the two accessors succeed or fail together, so the
instance is never seen half-initialized. -/
theorem helium_accessors_spec (App Db : Type) (s : HeliumState App Db)
    (app : App) (db : Db) :
    (heliumExpress (heliumInit App Db) = .error .notStarted ∧
      heliumDatabase (heliumInit App Db) = .error .notStarted) ∧
    (heliumExpress (heliumStart s app db) = .ok app ∧
      heliumDatabase (heliumStart s app db) = .ok db) ∧
    (∀ t : HeliumState App Db, HeliumReachable App Db t →
      ((∃ a, heliumExpress t = .ok a) ↔ (∃ d, heliumDatabase t = .ok d))) := by
  refine ⟨⟨rfl, rfl⟩, ⟨rfl, rfl⟩, ?_⟩
  intro t ht
  cases ht with
  | init =>
    constructor
    · rintro ⟨a, ha⟩; exact absurd ha (by simp [heliumExpress, heliumInit])
    · rintro ⟨d, hd⟩; exact absurd hd (by simp [heliumDatabase, heliumInit])
  | started s2 app2 db2 _ =>
    constructor
    · intro _; exact ⟨db2, rfl⟩
    · intro _; exact ⟨app2, rfl⟩

theorem helium_accessors_spec_witness :
    (∃ a, heliumExpress (heliumStart (heliumInit Nat Nat) 7 9) = .ok a) ↔
      (∃ d, heliumDatabase (heliumStart (heliumInit Nat Nat) 7 9) = .ok d) := by
  exact (helium_accessors_spec Nat Nat (heliumInit Nat Nat) 7 9).2.2
    (heliumStart (heliumInit Nat Nat) 7 9)
    (HeliumReachable.started (heliumInit Nat Nat) 7 9 (HeliumReachable.init))
